import Mathlib

/-!
# Persistence plugin for a reactive store: model and verification

Shallow embedding of `src/stores/plugins/plugin-pinia-persistence.js`
(`serializer`, `hydrateStore`, `persistState`, `createPersisted`,
`createPersistedState`) together with the sample configuration of
`src/stores/index.js` and `src/stores/user.js`.

The plugin is glue around collaborators that are not part of the repository:
`JSON.stringify`, `destr`, `deepPickUnsafe`, `deepOmitUnsafe`, the storage
backends, the hydration callbacks and the store object of the framework.
They enter the model through `Env`, `Storage` and `Hook`, as functions that
either return or throw, so that every statement about the plugin holds for
all behaviours of its collaborators.  Concrete collaborators, used for the
examples of the specification, are defined in the second half of the
definitions.
-/

namespace PiniaPersistence

/-! ## Values -/

/-- JavaScript values that can occur in a store state or in stored text.
Numbers are modelled as integers. -/
inductive JVal where
  | null : JVal
  | bool (b : Bool) : JVal
  | num (n : Int) : JVal
  | str (s : String) : JVal
  | arr (xs : List JVal) : JVal
  | obj (kvs : List (String × JVal)) : JVal

/-- A thrown JavaScript error, identified by its message. -/
abbrev Err := String

/-- Value of the own property `k` of an object given by its members. -/
def getField (k : String) : List (String × JVal) → Option JVal
  | [] => none
  | (k', v) :: rest => if k' = k then some v else getField k rest

/-- Assignment `o[k] = v` on an object given by its members. -/
def setField (k : String) (v : JVal) : List (String × JVal) → List (String × JVal)
  | [] => [(k, v)]
  | (k', v') :: rest => if k' = k then (k, v) :: rest else (k', v') :: setField k v rest

/-- Property read `v[k]`; `none` stands for `undefined`. -/
def JVal.field (v : JVal) (k : String) : Option JVal :=
  match v with
  | .obj kvs => getField k kvs
  | _ => none

/-! ## Collaborators -/

/-- A storage backend (`getItem`/`setItem`); either call may throw. `none`
as a result of `getItem` is `null`. -/
structure Storage where
  name : String
  getItem : String → Except Err (Option String)
  setItem : String → String → Except Err Unit

/-- A hydration callback. It receives the plugin context, identified by
`Context.id`, and may throw. -/
structure Hook where
  name : String
  call : Nat → Except Err Unit

/-- The functions imported by the plugin and the global `window.localStorage`. -/
structure Env where
  stringify : JVal → Except Err String
  destr : String → Except Err JVal
  deepPickUnsafe : JVal → List String → Except Err JVal
  deepOmitUnsafe : JVal → List String → Except Err JVal
  localStorage : Storage

/-! ## Configuration -/

/-- One entry of a store's `persist` option as the application writes it;
`none` is an absent (`undefined` or `null`) property. -/
structure PersistenceOptions where
  key : Option String
  storage : Option Storage
  pick : Option (List String)
  omit' : Option (List String)
  beforeHydrate : Option Hook
  afterHydrate : Option Hook
  debug : Option Bool

/-- The object literal `{}`. -/
def PersistenceOptions.empty : PersistenceOptions :=
  ⟨none, none, none, none, none, none, none⟩

/-- The `persist` option of a store definition: a boolean, one entry or an
array of entries. -/
inductive PersistOption where
  | bool (b : Bool) : PersistOption
  | single (p : PersistenceOptions) : PersistOption
  | list (ps : List PersistenceOptions) : PersistOption

/-- JavaScript truthiness of a `persist` option (objects and arrays are truthy). -/
def PersistOption.truthy : PersistOption → Bool
  | .bool b => b
  | .single _ => true
  | .list _ => true

/-- The plugin context `{ store, options }`: the store's `$id` and
`options.persist` (`none` when the store definition has no `persist`). -/
structure Context where
  id : Nat
  storeId : String
  persist : Option PersistOption

/-- The property `key` of the global configuration when it is present. -/
inductive ConfigKey where
  | fn (f : String → String) : ConfigKey
  | value (v : JVal) : ConfigKey

/-- The global configuration passed to `createPersistedState`. -/
structure Config where
  key : Option ConfigKey
  storage : Option Storage
  debug : Option Bool

/-- The default argument `config = {}` of `createPersistedState`. -/
def Config.empty : Config := ⟨none, none, none⟩

/-- A resolved entry: the objects built by `persistenceOptions.map` in
`createPersisted`. -/
structure Persistence where
  key : String
  storage : Storage
  pick : Option (List String)
  omit' : Option (List String)
  beforeHydrate : Option Hook
  afterHydrate : Option Hook
  debug : Bool

/-! ## The world: store, listeners and the record of external calls -/

/-- Calls made by the function being run to its collaborators, in the order
they happen. A call is recorded when it is made, also when it then throws.
Listeners that the framework runs on its own account are separate runs of
`persistState`; their calls are those of `notify`. -/
inductive Event where
  | hook (name : String) (ctx : Nat) : Event
  | getItem (storage key : String) : Event
  | setItem (storage key text : String) : Event
  | patch (value : JVal) : Event
  | subscribe (key : String) (detached : Bool) : Event
  | consoleError (msg : String) : Event

/-- The store of the context (its `$state` and the listeners registered with
`$subscribe`, each listener being the closure over its resolved entry) and
the record of external calls. -/
structure World where
  state : JVal
  subs : List Persistence
  trace : List Event

/-- Computations of the plugin: they read and change the world and either
return or throw; the effects made before a throw persist. -/
def M (α : Type) : Type := World → Except Err α × World

instance : Monad M where
  pure a := fun w => (.ok a, w)
  bind m f := fun w =>
    match m w with
    | (.ok a, w') => f a w'
    | (.error e, w') => (.error e, w')

/-- The statement `try { body } catch (error) { handler(error) }`. -/
def tryCatchM {α : Type} (body : M α) (handler : Err → M α) : M α := fun w =>
  match body w with
  | (.ok a, w') => (.ok a, w')
  | (.error e, w') => handler e w'

/-- Record one external call. -/
def emit (ev : Event) : M Unit := fun w =>
  (.ok (), { w with trace := w.trace ++ [ev] })

/-- Result of a call that has been made: return or throw. -/
def liftE {α : Type} (r : Except Err α) : M α := fun w => (r, w)

/-- The call `storage.getItem(key)`. -/
def storageGetItem (storage : Storage) (key : String) : M (Option String) := do
  emit (.getItem storage.name key)
  liftE (storage.getItem key)

/-- The call `storage.setItem(key, text)`. -/
def storageSetItem (storage : Storage) (key text : String) : M Unit := do
  emit (.setItem storage.name key text)
  liftE (storage.setItem key text)

/-- The optional call `hook?.(context)`. -/
def callHook (hook : Option Hook) (context : Context) : M Unit :=
  match hook with
  | none => pure ()
  | some h => do
    emit (.hook h.name context.id)
    liftE (h.call context.id)

/-- The call `console.error(msg)`. -/
def consoleError (msg : String) : M Unit := emit (.consoleError msg)

mutual
/-- Modelled from the spec: the store framework is not part of this
repository; the value a field gets when a patch mentions it. Mappings are
merged, anything else is replaced. -/
def mergeValue : Option JVal → JVal → JVal
  | some (.obj t), .obj p => .obj (mergeFields t p)
  | _, .null => .null
  | _, .bool b => .bool b
  | _, .num n => .num n
  | _, .str s => .str s
  | _, .arr xs => .arr xs
  | _, .obj p => .obj p
/-- Modelled from the spec: the store framework is not part of this
repository; merge of the members of a patch into the members of a target,
one member after the other. -/
def mergeFields (t : List (String × JVal)) : List (String × JVal) → List (String × JVal)
  | [] => t
  | (k, sub) :: rest => mergeFields (setField k (mergeValue (getField k t) sub) t) rest
end

/-- Modelled from the spec: `store.$patch` of the store framework, which is
not part of this repository, "merges (partial patch, not replace)" a mapping
into the state: fields the patch does not mention are kept. -/
def mergePatch (state patch : JVal) : JVal :=
  match state, patch with
  | .obj t, .obj p => .obj (mergeFields t p)
  | s, _ => s

/-- The call `store.$patch(value)`: the state becomes the merge of the value
into it. -/
def storePatch (value : JVal) : M Unit := fun w =>
  (.ok (), { w with state := mergePatch w.state value, trace := w.trace ++ [.patch value] })

/-- The call `store.$subscribe(listener, { detached: true })` where `listener`
is `(_mutation, state) => { persistState(state, persist) }`. -/
def storeSubscribe (persist : Persistence) : M Unit := fun w =>
  (.ok (), { w with subs := w.subs ++ [persist],
                    trace := w.trace ++ [.subscribe persist.key true] })

/-- Run `f` on the elements of a list in order (`Array.prototype.forEach`);
a throw of `f` ends the loop. -/
def forEachM {α : Type} (f : α → M Unit) : List α → M Unit
  | [] => pure ()
  | a :: rest => do
    f a
    forEachM f rest

/-! ## The plugin -/

/-- The serializer: a pair of conversions between values and text. -/
structure Serializer where
  serialize : JVal → Except Err String
  deserialize : String → Except Err JVal

/-- The constant `serializer`: `JSON.stringify` and `destr`. -/
def serializer (env : Env) : Serializer where
  serialize := fun data => env.stringify data
  deserialize := fun data => env.destr data

/-- The include projection `pick ? deepPickUnsafe(value, pick) : value`. -/
def applyPick (env : Env) (pick : Option (List String)) (value : JVal) : Except Err JVal :=
  match pick with
  | some paths => env.deepPickUnsafe value paths
  | none => .ok value

/-- The exclude projection `omit ? deepOmitUnsafe(picked, omit) : picked`. -/
def applyOmit (env : Env) (omit' : Option (List String)) (picked : JVal) : Except Err JVal :=
  match omit' with
  | some paths => env.deepOmitUnsafe picked paths
  | none => .ok picked

/-- The function `hydrateStore(store, persist, context, runHooks)`. -/
def hydrateStore (env : Env) (persist : Persistence) (context : Context)
    (runHooks : Bool) : M Unit :=
  tryCatchM
    (do
      if runHooks then
        callHook persist.beforeHydrate context
      let fromStorage ← storageGetItem persist.storage persist.key
      match fromStorage with
      | none => pure ()
      | some text =>
        if text = "" then pure ()
        else do
          let deserialized ← liftE ((serializer env).deserialize text)
          let picked ← liftE (applyPick env persist.pick deserialized)
          let omitted ← liftE (applyOmit env persist.omit' picked)
          storePatch omitted
      if runHooks then
        callHook persist.afterHydrate context)
    (fun error =>
      if persist.debug then consoleError ("错误" ++ error) else pure ())

/-- The function `persistState(state, persist)`. -/
def persistState (env : Env) (state : JVal) (persist : Persistence) : M Unit :=
  tryCatchM
    (do
      let picked ← liftE (applyPick env persist.pick state)
      let omitted ← liftE (applyOmit env persist.omit' picked)
      let toStorage ← liftE ((serializer env).serialize omitted)
      storageSetItem persist.storage persist.key toStorage)
    (fun err =>
      if persist.debug then consoleError ("保存错误" ++ err) else pure ())

/-- The key naming function
`config.key && typeof config.key === "function" ? config.key : (x) => x`. -/
def keyFn (config : Config) : String → String :=
  match config.key with
  | some (.fn f) => f
  | _ => fun x => x

/-- The nullish coalescing operator `a ?? b`. -/
def nullish {α : Type} (a : Option α) (b : α) : α :=
  match a with
  | some x => x
  | none => b

/-- The callback of `persistenceOptions.map` in `createPersisted`. -/
def resolvePersistence (env : Env) (storeId : String) (config : Config)
    (p : PersistenceOptions) : Persistence where
  key := keyFn config (nullish p.key storeId)
  storage := nullish p.storage (nullish config.storage env.localStorage)
  pick := p.pick
  omit' := p.omit'
  beforeHydrate := p.beforeHydrate
  afterHydrate := p.afterHydrate
  debug := nullish p.debug (nullish config.debug false)

/-- The array `persistenceOptions` of `createPersisted`, for a truthy option. -/
def persistenceOptions : PersistOption → List PersistenceOptions
  | .list ps => ps
  | .bool _ => [PersistenceOptions.empty]
  | .single p => [p]

/-- The array `persistences` of `createPersisted`: every entry of
`persistenceOptions` resolved against the global configuration, in order. -/
def persistences (env : Env) (storeId : String) (config : Config)
    (persist : PersistOption) : List Persistence :=
  (persistenceOptions persist).map (resolvePersistence env storeId config)

/-- The function `createPersisted(context, config)`. -/
def createPersisted (env : Env) (context : Context) (config : Config) : M Unit :=
  let persist := nullish context.persist (.bool false)
  if !persist.truthy then pure ()
  else
    forEachM
      (fun persist => do
        hydrateStore env persist context true
        storeSubscribe persist)
      (persistences env context.storeId config persist)

/-- The plugin `createPersistedState(config)`, applied to a context. -/
def createPersistedState (env : Env) (config : Config) (context : Context) : M Unit :=
  createPersisted env context config

/-- Delivery of one mutation notification by the framework: every registered
listener is called with the new state. -/
def notify (env : Env) (state : JVal) : M Unit := fun w =>
  forEachM (persistState env state) w.subs w

/-! ## Concrete collaborators: JSON text -/

/-- Lower-case hexadecimal digit of a number below 16. -/
def hexDigit (n : Nat) : Char :=
  if n < 10 then Char.ofNat (48 + n) else Char.ofNat (87 + n)

/-- Modelled from the spec: `JSON.stringify` is a built-in of the platform, not
code of this repository; the text of one character inside a JSON string
(the escapes of `QuoteJSONString`). -/
def escapeChar (c : Char) : List Char :=
  if c = '"' then ['\\', '"']
  else if c = '\\' then ['\\', '\\']
  else if c = '\x08' then ['\\', 'b']
  else if c = '\x0c' then ['\\', 'f']
  else if c = '\n' then ['\\', 'n']
  else if c = '\r' then ['\\', 'r']
  else if c = '\t' then ['\\', 't']
  else if c.toNat < 32 then
    ['\\', 'u', '0', '0', hexDigit (c.toNat / 16), hexDigit (c.toNat % 16)]
  else [c]

/-- Modelled from the spec: `JSON.stringify` is a built-in of the platform;
the characters of a JSON string after its opening quote, closing quote
included. -/
def quoteJSON : List Char → List Char
  | [] => ['"']
  | c :: cs => escapeChar c ++ quoteJSON cs

/-- Value of a hexadecimal digit. -/
def hexValue (c : Char) : Option Nat :=
  if 48 ≤ c.toNat ∧ c.toNat ≤ 57 then some (c.toNat - 48)
  else if 97 ≤ c.toNat ∧ c.toNat ≤ 102 then some (c.toNat - 87)
  else if 65 ≤ c.toNat ∧ c.toNat ≤ 70 then some (c.toNat - 55)
  else none

/-- The character denoted by a one-letter escape of a JSON string. -/
def unescapeChar (c : Char) : Option Char :=
  if c = '"' then some '"'
  else if c = '\\' then some '\\'
  else if c = '/' then some '/'
  else if c = 'b' then some '\x08'
  else if c = 'f' then some '\x0c'
  else if c = 'n' then some '\n'
  else if c = 'r' then some '\r'
  else if c = 't' then some '\t'
  else none

/-- The character denoted by the four digits of a `u` escape; escapes of
surrogate halves are outside the model. -/
def hex4 (a b c d : Char) : Option Char :=
  match hexValue a, hexValue b, hexValue c, hexValue d with
  | some x, some y, some z, some u =>
    let n := ((x * 16 + y) * 16 + z) * 16 + u
    if n < 55296 ∨ 57343 < n then some (Char.ofNat n) else none
  | _, _, _, _ => none

/-- Modelled from the spec: `destr` is a package outside this repository;
reading of a JSON string after its opening quote: the characters it denotes
and the text after its closing quote, `none` for malformed text. -/
def readString : List Char → Option (List Char × List Char)
  | [] => none
  | c :: cs =>
    if c = '"' then some ([], cs)
    else if c = '\\' then
      match cs with
      | [] => none
      | e :: rest =>
        if e = 'u' then
          match rest with
          | a :: b :: c' :: d :: rest' =>
            match hex4 a b c' d, readString rest' with
            | some x, some (s, r) => some (x :: s, r)
            | _, _ => none
          | _ => none
        else
          match unescapeChar e, readString rest with
          | some x, some (s, r) => some (x :: s, r)
          | _, _ => none
    else if c.toNat < 32 then none
    else
      match readString cs with
      | some (s, r) => some (c :: s, r)
      | none => none

/-- Decimal digit of a number below 10. -/
def digitChar (n : Nat) : Char := Char.ofNat (48 + n)

/-- Decimal digits of `n`, most significant first; `fuel` bounds the number
of digits. -/
def natDigitsAux : Nat → Nat → List Char
  | 0, _ => []
  | fuel + 1, n =>
    if n < 10 then [digitChar n] else natDigitsAux fuel (n / 10) ++ [digitChar (n % 10)]

/-- Decimal digits of a natural number. -/
def natDigits (n : Nat) : List Char := natDigitsAux (n + 1) n

/-- Modelled from the spec: `JSON.stringify` is a built-in of the platform;
the text of an integer number. -/
def intDigits : Int → List Char
  | .ofNat m => natDigits m
  | .negSucc m => '-' :: natDigits (m + 1)

/-- Decimal digits. -/
def isDigit (c : Char) : Bool := decide (48 ≤ c.toNat ∧ c.toNat ≤ 57)

/-- The leading digits of a text and the text after them. -/
def takeDigits : List Char → List Char × List Char
  | [] => ([], [])
  | c :: cs =>
    if isDigit c then ((c :: (takeDigits cs).1), (takeDigits cs).2) else ([], c :: cs)

/-- The number denoted by decimal digits. -/
def digitsValue (ds : List Char) : Nat :=
  ds.foldl (fun acc c => acc * 10 + (c.toNat - 48)) 0

/-- Reading of a natural number without superfluous leading zero. -/
def readNat (cs : List Char) : Option (Nat × List Char) :=
  match takeDigits cs with
  | ([], _) => none
  | (d :: ds, r) =>
    if d = '0' ∧ ds ≠ [] then none else some (digitsValue (d :: ds), r)

/-- Modelled from the spec: `destr` is a package outside this repository;
reading of an integer JSON number (fractions and exponents are outside the
model and are rejected by the reader that follows). -/
def readNumber (cs : List Char) : Option (Int × List Char) :=
  match cs with
  | [] => none
  | c :: rest =>
    if c = '-' then
      match readNat rest with
      | some (n, r) => some (-(n : Int), r)
      | none => none
    else
      match readNat (c :: rest) with
      | some (n, r) => some ((n : Int), r)
      | none => none

/-- The text that follows a number does not continue it. -/
def endsNumber : List Char → Bool
  | [] => true
  | c :: _ => !isDigit c


/-- JSON white space. -/
def isSpace (c : Char) : Bool :=
  decide (c = ' ' ∨ c = '\t' ∨ c = '\n' ∨ c = '\r')

/-- The text after its leading white space. -/
def skipWs : List Char → List Char
  | [] => []
  | c :: cs => if isSpace c then skipWs cs else c :: cs

/-- The text after a given prefix, `none` when it does not start with it. -/
def dropPrefix : List Char → List Char → Option (List Char)
  | [], cs => some cs
  | _ :: _, [] => none
  | p :: ps, c :: cs => if p = c then dropPrefix ps cs else none

mutual
/-- Modelled from the spec: `JSON.stringify` is a built-in of the platform, not
code of this repository; the text of a value, without white space, members
and elements in their order. -/
def stringifyValue : JVal → List Char
  | .null => ['n', 'u', 'l', 'l']
  | .bool true => ['t', 'r', 'u', 'e']
  | .bool false => ['f', 'a', 'l', 's', 'e']
  | .num n => intDigits n
  | .str s => '"' :: quoteJSON s.data
  | .arr [] => ['[', ']']
  | .arr (x :: xs) => '[' :: (stringifyValue x ++ stringifyElements xs)
  | .obj [] => ['{', '}']
  | .obj ((k, v) :: kvs) =>
    '{' :: '"' :: (quoteJSON k.data ++ ':' :: (stringifyValue v ++ stringifyMembers kvs))
/-- Text of the remaining elements of an array, closing bracket included. -/
def stringifyElements : List JVal → List Char
  | [] => [']']
  | x :: xs => ',' :: (stringifyValue x ++ stringifyElements xs)
/-- Text of the remaining members of an object, closing brace included. -/
def stringifyMembers : List (String × JVal) → List Char
  | [] => ['}']
  | (k, v) :: kvs =>
    ',' :: '"' :: (quoteJSON k.data ++ ':' :: (stringifyValue v ++ stringifyMembers kvs))
end

/-- Reading of `"key" :` in an object. -/
def readKey (cs : List Char) : Option (String × List Char) :=
  match skipWs cs with
  | [] => none
  | c :: rest =>
    if c = '"' then
      match readString rest with
      | none => none
      | some (k, r) =>
        match skipWs r with
        | [] => none
        | c' :: r' => if c' = ':' then some (String.mk k, r') else none
    else none

mutual
/-- Modelled from the spec: `destr` is a package outside this repository;
reading of one JSON value at the start of a text: the value and the text
after it, `none` for malformed text. `fuel` bounds the nesting and is always
given as more than the length of the text. -/
def readValue : Nat → List Char → Option (JVal × List Char)
  | 0, _ => none
  | fuel + 1, cs =>
    match skipWs cs with
    | [] => none
    | c :: rest =>
      if c = '"' then
        match readString rest with
        | some (s, r) => some (.str (String.mk s), r)
        | none => none
      else if c = '[' then
        match skipWs rest with
        | [] => none
        | c' :: rest' =>
          if c' = ']' then some (.arr [], rest')
          else
            match readValue fuel (c' :: rest') with
            | none => none
            | some (v, r) =>
              match readElements fuel r with
              | some (vs, r') => some (.arr (v :: vs), r')
              | none => none
      else if c = '{' then
        match skipWs rest with
        | [] => none
        | c' :: rest' =>
          if c' = '}' then some (.obj [], rest')
          else
            match readKey (c' :: rest') with
            | none => none
            | some (k, r) =>
              match readValue fuel r with
              | none => none
              | some (v, r') =>
                match readMembers fuel r' with
                | some (kvs, r'') => some (.obj ((k, v) :: kvs), r'')
                | none => none
      else if c = 't' then
        match dropPrefix ['r', 'u', 'e'] rest with
        | some r => some (.bool true, r)
        | none => none
      else if c = 'f' then
        match dropPrefix ['a', 'l', 's', 'e'] rest with
        | some r => some (.bool false, r)
        | none => none
      else if c = 'n' then
        match dropPrefix ['u', 'l', 'l'] rest with
        | some r => some (.null, r)
        | none => none
      else
        match readNumber (c :: rest) with
        | some (n, r) => some (.num n, r)
        | none => none
/-- Reading of the remaining elements of an array, closing bracket included. -/
def readElements : Nat → List Char → Option (List JVal × List Char)
  | 0, _ => none
  | fuel + 1, cs =>
    match skipWs cs with
    | [] => none
    | c :: rest =>
      if c = ']' then some ([], rest)
      else if c = ',' then
        match readValue fuel rest with
        | none => none
        | some (v, r) =>
          match readElements fuel r with
          | some (vs, r') => some (v :: vs, r')
          | none => none
      else none
/-- Reading of the remaining members of an object, closing brace included. -/
def readMembers : Nat → List Char → Option (List (String × JVal) × List Char)
  | 0, _ => none
  | fuel + 1, cs =>
    match skipWs cs with
    | [] => none
    | c :: rest =>
      if c = '}' then some ([], rest)
      else if c = ',' then
        match readKey rest with
        | none => none
        | some (k, r) =>
          match readValue fuel r with
          | none => none
          | some (v, r') =>
            match readMembers fuel r' with
            | some (kvs, r'') => some ((k, v) :: kvs, r'')
            | none => none
      else none
end

/-- Modelled from the spec: `JSON.stringify`, a built-in of the platform and not
code of this repository, on the values of `JVal`. -/
def jsonStringify (v : JVal) : String := String.mk (stringifyValue v)

/-- Modelled from the spec: `destr` is a package outside this repository. The
spec describes `deserialize` as the inverse of `serialize` on JSON text, for
which "malformed text yields an error rather than partial data": the text
must be one JSON value, white space allowed around it. -/
def jsonParse (text : String) : Except Err JVal :=
  match readValue (text.data.length + 1) text.data with
  | some (v, rest) =>
    match skipWs rest with
    | [] => .ok v
    | _ :: _ => .error "SyntaxError: unexpected text after the JSON value"
  | none => .error "SyntaxError: the text is not valid JSON"

/-! ## Concrete collaborators: projections, storages and the sample store -/

/-- Components of a dotted path, the current component being accumulated in
reverse. -/
def splitPathAux (cur : List Char) : List Char → List String
  | [] => [String.mk cur.reverse]
  | c :: cs =>
    if c = '.' then String.mk cur.reverse :: splitPathAux [] cs
    else splitPathAux (c :: cur) cs

/-- Components of a dotted field path: `a.b` is `a` then `b`. -/
def splitPath (path : String) : List String := splitPathAux [] path.data

/-- The value at a path, `none` when a component is missing. -/
def getPath : JVal → List String → Option JVal
  | v, [] => some v
  | v, k :: ks =>
    match v.field k with
    | some x => getPath x ks
    | none => none

/-- Members of a mapping; anything else has none. -/
def membersOf : JVal → List (String × JVal)
  | .obj kvs => kvs
  | _ => []

/-- The mapping `acc` with `value` put at a path, the mappings on the way
being created when missing. -/
def setPath : JVal → List String → JVal → JVal
  | _, [], value => value
  | acc, k :: ks, value =>
    .obj (setField k
      (setPath (nullish (getField k (membersOf acc)) (.obj [])) ks value) (membersOf acc))

/-- Modelled from the spec: `deepPickUnsafe` of the package `deep-pick-omit`
is not code of this repository; the include projection keeps, of a nested
mapping, exactly the listed field paths that exist. -/
def deepPick (value : JVal) (paths : List String) : JVal :=
  paths.foldl
    (fun acc path =>
      match getPath value (splitPath path) with
      | some x => setPath acc (splitPath path) x
      | none => acc)
    (.obj [])

/-- The members of a mapping without the field `k`. -/
def removeField (k : String) : List (String × JVal) → List (String × JVal)
  | [] => []
  | (k', v) :: rest => if k' = k then removeField k rest else (k', v) :: removeField k rest

/-- The value without what is at a path. -/
def unsetPath : JVal → List String → JVal
  | v, [] => v
  | .obj kvs, k :: ks =>
    match ks with
    | [] => .obj (removeField k kvs)
    | _ :: _ =>
      match getField k kvs with
      | some child => .obj (setField k (unsetPath child ks) kvs)
      | none => .obj kvs
  | v, _ :: _ => v

/-- Modelled from the spec: `deepOmitUnsafe` of the package `deep-pick-omit`
is not code of this repository; the exclude projection removes, from a
nested mapping, the listed field paths. -/
def deepOmit (value : JVal) (paths : List String) : JVal :=
  paths.foldl (fun acc path => unsetPath acc (splitPath path)) value

/-- The text stored under a key. -/
def lookupItem (key : String) : List (String × String) → Option String
  | [] => none
  | (k, text) :: rest => if k = key then some text else lookupItem key rest

/-- A storage backend that holds the given entries and accepts every write. -/
def memoryStorage (name : String) (items : List (String × String)) : Storage where
  name := name
  getItem := fun key => .ok (lookupItem key items)
  setItem := fun _ _ => .ok ()

/-- A storage backend whose reads and writes throw (access denied, quota
exceeded). -/
def brokenStorage (name : String) : Storage where
  name := name
  getItem := fun _ => .error "SecurityError"
  setItem := fun _ _ => .error "QuotaExceededError"

/-- The collaborators as the specification describes them, with an empty
`window.localStorage`. -/
def jsEnv : Env where
  stringify := fun data => .ok (jsonStringify data)
  destr := jsonParse
  deepPickUnsafe := fun value paths => .ok (deepPick value paths)
  deepOmitUnsafe := fun value paths => .ok (deepOmit value paths)
  localStorage := memoryStorage "localStorage" []

/-- The initial state of the store `user` (`src/stores/user.js`). -/
def userState : JVal :=
  .obj [("name", .str ""), ("count", .num 1), ("a", .obj [("b", .str "B")]),
    ("c", .obj [("d", .obj [("e", .str "E"), ("f", .str "F")])])]

/-- The callbacks of the store `user`; they log and return. -/
def userHook (name : String) : Hook where
  name := name
  call := fun _ => .ok ()

/-- The `persist` entry of the store `user`, for a given `sessionStorage`. -/
def userPersist (session : Storage) : PersistenceOptions where
  key := some "my_user"
  storage := some session
  pick := none
  omit' := some ["name"]
  beforeHydrate := some (userHook "beforeHydrate")
  afterHydrate := some (userHook "afterHydrate")
  debug := none

/-- The plugin context of the store `user`. -/
def userContext (session : Storage) : Context where
  id := 1
  storeId := "user"
  persist := some (.single (userPersist session))

/-- The global configuration of `src/stores/index.js`. -/
def globalConfig : Config where
  key := some (.fn (fun id => "__" ++ id))
  storage := some (memoryStorage "localStorage" [])
  debug := none

/-! ## Observations used in the statements -/

/-- A world in which nothing has been recorded yet. -/
def World.blank (state : JVal) : World := ⟨state, [], []⟩

/-- The outcome of the optional call `hook?.(context)`: an absent callback
returns. -/
def hookResult (hook : Option Hook) (context : Context) : Except Err Unit :=
  match hook with
  | none => .ok ()
  | some h => h.call context.id

/-- The calls recorded by `hook?.(context)`: none for an absent callback. -/
def hookEvents (hook : Option Hook) (context : Context) : List Event :=
  match hook with
  | none => []
  | some h => [.hook h.name context.id]

/-- The value `hydrateStore` passes to `store.$patch` for a stored text:
deserialized, then the include projection, then the exclude projection. -/
def hydrateValue (env : Env) (persist : Persistence) (text : String) : Except Err JVal :=
  match (serializer env).deserialize text with
  | .error e => .error e
  | .ok deserialized =>
    match applyPick env persist.pick deserialized with
    | .error e => .error e
    | .ok picked => applyOmit env persist.omit' picked

/-- The text `persistState` passes to `storage.setItem` for a state: the
include projection, then the exclude projection, then serialized. -/
def persistText (env : Env) (state : JVal) (persist : Persistence) : Except Err String :=
  match applyPick env persist.pick state with
  | .error e => .error e
  | .ok picked =>
    match applyOmit env persist.omit' picked with
    | .error e => .error e
    | .ok omitted => (serializer env).serialize omitted

/-- The messages `hydrateStore` logs for an error. -/
def hydrateLog (persist : Persistence) (e : Err) : List Event :=
  if persist.debug then [Event.consoleError ("错误" ++ e)] else []

/-- The end of `hydrateStore` once the read and the patch are done: the
post-hydrate callback, whose error is caught like any other. -/
def hydrateFinish (persist : Persistence) (context : Context) (w : World)
    (state : JVal) (evs : List Event) : Except Err Unit × World :=
  match hookResult persist.afterHydrate context with
  | .ok _ =>
    (.ok (), { state := state, subs := w.subs,
               trace := w.trace ++ evs ++ hookEvents persist.afterHydrate context })
  | .error e =>
    (.ok (), { state := state, subs := w.subs,
               trace := w.trace ++ evs ++ hookEvents persist.afterHydrate context ++
                 hydrateLog persist e })

/-- Whether every step of `hydrateStore` before the post-hydrate callback
returns: the pre-hydrate callback, the read and, for a present text, the
deserialization and the projections. -/
def hydrateCompletes (env : Env) (persist : Persistence) (context : Context) : Bool :=
  match hookResult persist.beforeHydrate context with
  | .error _ => false
  | .ok _ =>
    match persist.storage.getItem persist.key with
    | .error _ => false
    | .ok none => true
    | .ok (some text) =>
      if text = "" then true
      else
        match hydrateValue env persist text with
        | .ok _ => true
        | .error _ => false

/-- The calls one run of the listener of an entry makes for a new state. -/
def persistEvents (env : Env) (state : JVal) (persist : Persistence) : List Event :=
  (persistState env state persist (World.blank .null)).2.trace

/-- Reads of a storage. -/
def Event.isGetItem : Event → Bool
  | .getItem _ _ => true
  | _ => false

/-- Calls of `store.$patch`. -/
def Event.isPatch : Event → Bool
  | .patch _ => true
  | _ => false

/-- Calls of `console.error`. -/
def Event.isConsoleError : Event → Bool
  | .consoleError _ => true
  | _ => false

/-- A resolved entry with the given include and exclude lists, key `example`,
an empty storage named `localStorage`, no callback and no debug output. -/
def examplePersistence (pick omit' : Option (List String)) : Persistence where
  key := "example"
  storage := memoryStorage "localStorage" []
  pick := pick
  omit' := omit'
  beforeHydrate := none
  afterHydrate := none
  debug := false

theorem hex_roundtrip : ∀ n : Fin 32,
    hex4 '0' '0' (hexDigit (n.val / 16)) (hexDigit (n.val % 16)) = some (Char.ofNat n.val) := by
  decide

theorem readString_cons (c : Char) (cs : List Char) :
    readString (c :: cs) =
    if c = '"' then some ([], cs)
    else if c = '\\' then
      match cs with
      | [] => none
      | e :: rest =>
        if e = 'u' then
          match rest with
          | a :: b :: c' :: d :: rest' =>
            match hex4 a b c' d, readString rest' with
            | some x, some (s, r) => some (x :: s, r)
            | _, _ => none
          | _ => none
        else
          match unescapeChar e, readString rest with
          | some x, some (s, r) => some (x :: s, r)
          | _, _ => none
    else if c.toNat < 32 then none
    else
      match readString cs with
      | some (s, r) => some (c :: s, r)
      | none => none := by
  rw [readString.eq_def]

theorem readString_escapeChar (c : Char) (cs : List Char) :
    readString (escapeChar c ++ cs) =
      match readString cs with
      | some (s, r) => some (c :: s, r)
      | none => none := by
  unfold escapeChar
  split_ifs with h1 h2 h3 h4 h5 h6 h7 h8
  · subst h1; simp [readString_cons, unescapeChar]; cases readString cs <;> simp
  · subst h2; simp [readString_cons, unescapeChar]; cases readString cs <;> simp
  · subst h3; simp [readString_cons, unescapeChar]; cases readString cs <;> simp
  · subst h4; simp [readString_cons, unescapeChar]; cases readString cs <;> simp
  · subst h5; simp [readString_cons, unescapeChar]; cases readString cs <;> simp
  · subst h6; simp [readString_cons, unescapeChar]; cases readString cs <;> simp
  · subst h7; simp [readString_cons, unescapeChar]; cases readString cs <;> simp
  · have := hex_roundtrip ⟨c.toNat, h8⟩
    simp only [Char.ofNat_toNat] at this
    simp [readString_cons, this]
    cases readString cs <;> simp
  · simp [readString_cons, h1, h2, h8]

theorem readString_quoteJSON (s rest : List Char) :
    readString (quoteJSON s ++ rest) = some (s, rest) := by
  induction s with
  | nil => simp [quoteJSON, readString_cons]
  | cons c cs ih =>
    simp [quoteJSON, List.append_assoc, readString_escapeChar, ih]


theorem digitChar_facts : ∀ d : Fin 10,
    isDigit (digitChar d.val) = true ∧ (digitChar d.val).toNat - 48 = d.val ∧
      (digitChar d.val = '0' → d.val = 0) := by
  decide

theorem takeDigits_append (ds rest : List Char) (hds : ∀ c ∈ ds, isDigit c = true)
    (hrest : endsNumber rest = true) : takeDigits (ds ++ rest) = (ds, rest) := by
  induction ds with
  | nil =>
    cases rest with
    | nil => rfl
    | cons c cs => simp [endsNumber] at hrest; simp [takeDigits, hrest]
  | cons d ds ih =>
    have hd : isDigit d = true := hds d (by simp)
    have := ih (fun c hc => hds c (by simp [hc]))
    simp [takeDigits, hd, this]

theorem natDigitsAux_spec (fuel : Nat) : ∀ n, n < fuel →
    (∀ c ∈ natDigitsAux fuel n, isDigit c = true) ∧
    digitsValue (natDigitsAux fuel n) = n ∧
    ∃ d ds, natDigitsAux fuel n = d :: ds ∧ (d = '0' → n = 0 ∧ ds = []) := by
  induction fuel with
  | zero => intro n h; omega
  | succ fuel ih =>
    intro n hn
    unfold natDigitsAux
    by_cases h10 : n < 10
    · obtain ⟨h1, h2, h3⟩ := digitChar_facts ⟨n, h10⟩
      simp only at h1 h2 h3
      simp only [h10, if_true]
      refine ⟨by simpa using h1, by simp [digitsValue, h2], digitChar n, [], rfl, fun h => ⟨h3 h, rfl⟩⟩
    · obtain ⟨a1, a2, d, ds, a3, a4⟩ := ih (n / 10) (by omega)
      obtain ⟨h1, h2, _⟩ := digitChar_facts ⟨n % 10, Nat.mod_lt _ (by omega)⟩
      simp only at h1 h2
      simp only [h10, if_false]
      refine ⟨?_, ?_, d, ds ++ [digitChar (n % 10)], by simp [a3], ?_⟩
      · intro c hc
        rcases List.mem_append.mp hc with hc | hc
        · exact a1 c hc
        · simp at hc; subst hc; exact h1
      · unfold digitsValue at a2 ⊢
        rw [List.foldl_append]
        simp only [List.foldl_cons, List.foldl_nil, a2, h2]
        omega
      · intro hd
        have := (a4 hd).1
        omega

theorem readNat_natDigits (n : Nat) (rest : List Char) (hrest : endsNumber rest = true) :
    readNat (natDigits n ++ rest) = some (n, rest) := by
  obtain ⟨h1, h2, d, ds, h3, h4⟩ := natDigitsAux_spec (n + 1) n (by omega)
  unfold readNat natDigits
  rw [takeDigits_append _ _ h1 hrest]
  rw [h3] at h2 ⊢
  simp only
  by_cases hd : d = '0'
  · obtain ⟨hn, hds⟩ := h4 hd
    simp [hd, hds, hn, digitsValue]
  · simp [hd, h2]

theorem natDigits_head (n : Nat) :
    ∃ d ds, natDigits n = d :: ds ∧ isDigit d = true := by
  obtain ⟨h1, _, d, ds, h3, _⟩ := natDigitsAux_spec (n + 1) n (by omega)
  exact ⟨d, ds, h3, h1 d (by rw [h3]; simp)⟩

theorem readNumber_intDigits (n : Int) (rest : List Char) (hrest : endsNumber rest = true) :
    readNumber (intDigits n ++ rest) = some (n, rest) := by
  cases n with
  | ofNat m =>
    obtain ⟨d, ds, hd, hdig⟩ := natDigits_head m
    have hne : d ≠ '-' := by
      intro h; subst h; revert hdig; decide
    have := readNat_natDigits m rest hrest
    rw [hd, List.cons_append] at this
    simp [intDigits, readNumber, hd, hne, this]
  | negSucc m =>
    have := readNat_natDigits (m + 1) rest hrest
    simp [intDigits, readNumber, this, Int.negSucc_eq]


theorem dropPrefix_append (p rest : List Char) : dropPrefix p (p ++ rest) = some rest := by
  induction p with
  | nil => rfl
  | cons c cs ih => simp [dropPrefix, ih]

theorem skipWs_cons (c : Char) (cs : List Char) (h : isSpace c = false) :
    skipWs (c :: cs) = c :: cs := by
  simp [skipWs, h]

theorem isDigit_ne (d : Char) (h : isDigit d = true) :
    isSpace d = false ∧ d ≠ '"' ∧ d ≠ '[' ∧ d ≠ '{' ∧ d ≠ 't' ∧ d ≠ 'f' ∧ d ≠ 'n' ∧ d ≠ '-' := by
  simp only [isDigit, decide_eq_true_eq] at h
  refine ⟨?_, ?_, ?_, ?_, ?_, ?_, ?_, ?_⟩
  · simp only [isSpace, decide_eq_false_iff_not]
    rintro (h' | h' | h' | h') <;> subst h' <;> revert h <;> decide
  all_goals (intro h'; subst h'; revert h; decide)

/-- The first character of the text of a value. -/
theorem stringifyValue_head (v : JVal) :
    ∃ c cs, stringifyValue v = c :: cs ∧ isSpace c = false ∧ c ≠ ']' ∧ c ≠ '}' := by
  cases v with
  | null => exact ⟨_, _, rfl, by decide, by decide, by decide⟩
  | bool b => cases b <;> exact ⟨_, _, rfl, by decide, by decide, by decide⟩
  | num n =>
    cases n with
    | ofNat m =>
      obtain ⟨d, ds, hd, hdig⟩ := natDigits_head m
      refine ⟨d, ds, by simp [stringifyValue, intDigits, hd], (isDigit_ne d hdig).1, ?_, ?_⟩ <;>
        (intro h'; subst h'; revert hdig; decide)
    | negSucc m => exact ⟨_, _, rfl, by decide, by decide, by decide⟩
  | str s => exact ⟨_, _, rfl, by decide, by decide, by decide⟩
  | arr xs =>
    cases xs <;> exact ⟨_, _, rfl, by decide, by decide, by decide⟩
  | obj kvs =>
    rcases kvs with _ | ⟨⟨k, v⟩, kvs⟩ <;>
      exact ⟨_, _, rfl, by decide, by decide, by decide⟩

theorem readKey_quote (k : String) (rest : List Char) :
    readKey ('"' :: (quoteJSON k.data ++ ':' :: rest)) = some (k, rest) := by
  have h1 : skipWs ('"' :: (quoteJSON k.data ++ ':' :: rest)) = '"' :: (quoteJSON k.data ++ ':' :: rest) :=
    skipWs_cons _ _ (by decide)
  have h2 : skipWs (':' :: rest) = ':' :: rest := skipWs_cons _ _ (by decide)
  simp [readKey, h1, h2, readString_quoteJSON]

theorem endsNumber_elements (xs : List JVal) (rest : List Char) :
    endsNumber (stringifyElements xs ++ rest) = true := by
  cases xs <;> simp [stringifyElements, endsNumber] <;> decide

theorem endsNumber_members (kvs : List (String × JVal)) (rest : List Char) :
    endsNumber (stringifyMembers kvs ++ rest) = true := by
  rcases kvs with _ | ⟨⟨k, v⟩, kvs⟩ <;> simp [stringifyMembers, endsNumber] <;> decide


theorem readValue_array (fuel : Nat) (c : Char) (cs : List Char)
    (hsp : isSpace c = false) (hne : c ≠ ']') :
    readValue (fuel + 1) ('[' :: c :: cs) =
      match readValue fuel (c :: cs) with
      | none => none
      | some (v, r) =>
        match readElements fuel r with
        | some (vs, r') => some (.arr (v :: vs), r')
        | none => none := by
  have h1 : skipWs ('[' :: c :: cs) = '[' :: c :: cs := skipWs_cons _ _ (by decide)
  have h2 : skipWs (c :: cs) = c :: cs := skipWs_cons _ _ hsp
  rw [readValue]
  simp only [h1, h2]
  simp [hne]

theorem readValue_object (fuel : Nat) (body : List Char) :
    readValue (fuel + 1) ('{' :: '"' :: body) =
      match readKey ('"' :: body) with
      | none => none
      | some (k, r) =>
        match readValue fuel r with
        | none => none
        | some (v, r') =>
          match readMembers fuel r' with
          | some (kvs, r'') => some (.obj ((k, v) :: kvs), r'')
          | none => none := by
  have h1 : skipWs ('{' :: '"' :: body) = '{' :: '"' :: body := skipWs_cons _ _ (by decide)
  have h2 : skipWs ('"' :: body) = '"' :: body := skipWs_cons _ _ (by decide)
  rw [readValue]
  simp only [h1, h2]
  simp

theorem readElements_comma (fuel : Nat) (cs : List Char) :
    readElements (fuel + 1) (',' :: cs) =
      match readValue fuel cs with
      | none => none
      | some (v, r) =>
        match readElements fuel r with
        | some (vs, r') => some (v :: vs, r')
        | none => none := by
  have h1 : skipWs (',' :: cs) = ',' :: cs := skipWs_cons _ _ (by decide)
  rw [readElements]
  simp only [h1]
  simp

theorem readMembers_comma (fuel : Nat) (cs : List Char) :
    readMembers (fuel + 1) (',' :: cs) =
      match readKey cs with
      | none => none
      | some (k, r) =>
        match readValue fuel r with
        | none => none
        | some (v, r') =>
          match readMembers fuel r' with
          | some (kvs, r'') => some ((k, v) :: kvs, r'')
          | none => none := by
  have h1 : skipWs (',' :: cs) = ',' :: cs := skipWs_cons _ _ (by decide)
  rw [readMembers]
  simp only [h1]
  simp

theorem readValue_scalar (fuel : Nat) (rest : List Char) (hrest : endsNumber rest = true) :
    readValue (fuel + 1) (stringifyValue .null ++ rest) = some (.null, rest) ∧
    (∀ b, readValue (fuel + 1) (stringifyValue (.bool b) ++ rest) = some (.bool b, rest)) ∧
    (∀ n, readValue (fuel + 1) (stringifyValue (.num n) ++ rest) = some (.num n, rest)) ∧
    (∀ s, readValue (fuel + 1) (stringifyValue (.str s) ++ rest) = some (.str s, rest)) ∧
    readValue (fuel + 1) (stringifyValue (.arr []) ++ rest) = some (.arr [], rest) ∧
    readValue (fuel + 1) (stringifyValue (.obj []) ++ rest) = some (.obj [], rest) := by
  refine ⟨?_, ?_, ?_, ?_, ?_, ?_⟩
  · simp [stringifyValue, readValue, skipWs, isSpace, dropPrefix]
  · intro b; cases b <;> simp [stringifyValue, readValue, skipWs, isSpace, dropPrefix]
  · intro n
    have hnum := readNumber_intDigits n rest hrest
    obtain ⟨c, cs, hc, hsp, -, -⟩ := stringifyValue_head (.num n)
    have hc' : intDigits n = c :: cs := by simpa [stringifyValue] using hc
    have hcases : c = '-' ∨ isDigit c = true := by
      cases n with
      | ofNat m =>
        obtain ⟨d, ds, hd, hdig⟩ := natDigits_head m
        simp [intDigits, hd] at hc'
        right; rw [← hc'.1]; exact hdig
      | negSucc m =>
        simp [intDigits] at hc'
        left; exact hc'.1.symm
    have hne : c ≠ '"' ∧ c ≠ '[' ∧ c ≠ '{' ∧ c ≠ 't' ∧ c ≠ 'f' ∧ c ≠ 'n' := by
      rcases hcases with h | h
      · subst h; decide
      · obtain ⟨-, a1, a2, a3, a4, a5, a6, -⟩ := isDigit_ne c h
        exact ⟨a1, a2, a3, a4, a5, a6⟩
    obtain ⟨a1, a2, a3, a4, a5, a6⟩ := hne
    rw [hc'] at hnum
    simp only [stringifyValue, hc', List.cons_append] at hnum ⊢
    rw [readValue, skipWs_cons _ _ hsp]
    simp [a1, a2, a3, a4, a5, a6, hnum]
  · intro s
    have h1 : skipWs ('"' :: (quoteJSON s.data ++ rest)) = '"' :: (quoteJSON s.data ++ rest) :=
      skipWs_cons _ _ (by decide)
    simp only [stringifyValue, List.cons_append]
    rw [readValue]
    simp only [h1]
    simp [readString_quoteJSON]
  · simp [stringifyValue, readValue, skipWs, isSpace]
  · simp [stringifyValue, readValue, skipWs, isSpace]


theorem stringifyValue_length_pos (v : JVal) : 0 < (stringifyValue v).length := by
  obtain ⟨c, cs, hc, -⟩ := stringifyValue_head v
  simp [hc]

mutual
theorem readValue_stringifyValue : ∀ (v : JVal) (fuel : Nat) (rest : List Char),
    (stringifyValue v).length ≤ fuel → endsNumber rest = true →
    readValue fuel (stringifyValue v ++ rest) = some (v, rest)
  | v, 0, _, hf, _ => by
    have := stringifyValue_length_pos v
    omega
  | .null, fuel + 1, rest, _, hr => (readValue_scalar fuel rest hr).1
  | .bool b, fuel + 1, rest, _, hr => (readValue_scalar fuel rest hr).2.1 b
  | .num n, fuel + 1, rest, _, hr => (readValue_scalar fuel rest hr).2.2.1 n
  | .str s, fuel + 1, rest, _, hr => (readValue_scalar fuel rest hr).2.2.2.1 s
  | .arr [], fuel + 1, rest, _, hr => (readValue_scalar fuel rest hr).2.2.2.2.1
  | .obj [], fuel + 1, rest, _, hr => (readValue_scalar fuel rest hr).2.2.2.2.2
  | .arr (x :: xs), fuel + 1, rest, hf, _ => by
    simp only [stringifyValue, List.length_cons, List.length_append] at hf
    have ihx := readValue_stringifyValue x fuel (stringifyElements xs ++ rest) (by omega)
      (endsNumber_elements xs rest)
    have ihxs := readElements_stringifyElements xs fuel rest (by omega)
    obtain ⟨c, cs, hc, hsp, hne, -⟩ := stringifyValue_head x
    simp only [stringifyValue, List.cons_append, List.append_assoc]
    rw [hc] at ihx ⊢
    simp only [List.cons_append] at ihx ⊢
    rw [readValue_array fuel c _ hsp hne, ihx]
    simp only [ihxs]
  | .obj ((k, v) :: kvs), fuel + 1, rest, hf, _ => by
    simp only [stringifyValue, List.length_cons, List.length_append] at hf
    have ihv := readValue_stringifyValue v fuel (stringifyMembers kvs ++ rest) (by omega)
      (endsNumber_members kvs rest)
    have ihkvs := readMembers_stringifyMembers kvs fuel rest (by omega)
    simp only [stringifyValue, List.cons_append, List.append_assoc]
    rw [readValue_object, readKey_quote]
    simp only [ihv, ihkvs]
theorem readElements_stringifyElements : ∀ (xs : List JVal) (fuel : Nat) (rest : List Char),
    (stringifyElements xs).length ≤ fuel →
    readElements fuel (stringifyElements xs ++ rest) = some (xs, rest)
  | [], 0, _, hf => by simp [stringifyElements] at hf
  | _ :: _, 0, _, hf => by simp [stringifyElements] at hf
  | [], fuel + 1, rest, _ => by
    simp [stringifyElements, readElements, skipWs, isSpace]
  | x :: xs, fuel + 1, rest, hf => by
    simp only [stringifyElements, List.length_cons, List.length_append] at hf
    have ihx := readValue_stringifyValue x fuel (stringifyElements xs ++ rest) (by omega)
      (endsNumber_elements xs rest)
    have ihxs := readElements_stringifyElements xs fuel rest (by omega)
    simp only [stringifyElements, List.cons_append, List.append_assoc]
    rw [readElements_comma, ihx]
    simp only [ihxs]
theorem readMembers_stringifyMembers : ∀ (kvs : List (String × JVal)) (fuel : Nat)
    (rest : List Char), (stringifyMembers kvs).length ≤ fuel →
    readMembers fuel (stringifyMembers kvs ++ rest) = some (kvs, rest)
  | [], 0, _, hf => by simp [stringifyMembers] at hf
  | _ :: _, 0, _, hf => by simp [stringifyMembers] at hf
  | [], fuel + 1, rest, _ => by
    simp [stringifyMembers, readMembers, skipWs, isSpace]
  | (k, v) :: kvs, fuel + 1, rest, hf => by
    simp only [stringifyMembers, List.length_cons, List.length_append] at hf
    have ihv := readValue_stringifyValue v fuel (stringifyMembers kvs ++ rest) (by omega)
      (endsNumber_members kvs rest)
    have ihkvs := readMembers_stringifyMembers kvs fuel rest (by omega)
    simp only [stringifyMembers, List.cons_append, List.append_assoc]
    rw [readMembers_comma, readKey_quote]
    simp only [ihv, ihkvs]
end

@[simp] theorem run_pure {α : Type} (a : α) (w : World) :
    (pure a : M α) w = (.ok a, w) := rfl

@[simp] theorem run_bind {α β : Type} (m : M α) (f : α → M β) (w : World) :
    (m >>= f) w = match m w with
      | (.ok a, w') => f a w'
      | (.error e, w') => (.error e, w') := rfl

@[simp] theorem run_emit (ev : Event) (w : World) :
    emit ev w = (.ok (), { w with trace := w.trace ++ [ev] }) := rfl

@[simp] theorem run_liftE {α : Type} (r : Except Err α) (w : World) :
    liftE r w = (r, w) := rfl

@[simp] theorem run_consoleError (msg : String) (w : World) :
    consoleError msg w = (.ok (), { w with trace := w.trace ++ [.consoleError msg] }) := rfl

@[simp] theorem run_storePatch (value : JVal) (w : World) :
    storePatch value w =
      (.ok (), { w with state := mergePatch w.state value,
                        trace := w.trace ++ [.patch value] }) := rfl

theorem run_callHook (hook : Option Hook) (context : Context) (w : World) :
    callHook hook context w =
      (hookResult hook context, { w with trace := w.trace ++ hookEvents hook context }) := by
  cases hook with
  | none => simp [callHook, hookResult, hookEvents]
  | some h => simp [callHook, hookResult, hookEvents]

theorem persistState_run (env : Env) (state : JVal) (persist : Persistence) (w : World) :
    persistState env state persist w =
      match persistText env state persist with
      | .error e =>
        (.ok (), { w with trace := w.trace ++
          (if persist.debug then [Event.consoleError ("保存错误" ++ e)] else []) })
      | .ok text =>
        match persist.storage.setItem persist.key text with
        | .ok _ =>
          (.ok (), { w with trace := w.trace ++ [.setItem persist.storage.name persist.key text] })
        | .error e =>
          (.ok (), { w with trace := w.trace ++
            (.setItem persist.storage.name persist.key text ::
              (if persist.debug then [Event.consoleError ("保存错误" ++ e)] else [])) }) := by
  unfold persistState tryCatchM storageSetItem persistText
  simp only [run_bind, run_liftE, run_emit]
  cases hp : applyPick env persist.pick state with
  | error e => cases hd : persist.debug <;> simp
  | ok picked =>
    cases ho : applyOmit env persist.omit' picked with
    | error e => cases hd : persist.debug <;> simp [ho]
    | ok omitted =>
      cases hs : (serializer env).serialize omitted with
      | error e => cases hd : persist.debug <;> simp [ho, hs]
      | ok text =>
        cases hw : persist.storage.setItem persist.key text with
        | error e => cases hd : persist.debug <;> simp [ho, hs, hw]
        | ok u => simp [ho, hs, hw]

theorem hydrateStore_run (env : Env) (persist : Persistence) (context : Context) (w : World) :
    hydrateStore env persist context true w =
      match hookResult persist.beforeHydrate context with
      | .error e =>
        (.ok (), { w with trace := (w.trace ++ hookEvents persist.beforeHydrate context ++
          hydrateLog persist e) })
      | .ok _ =>
        match persist.storage.getItem persist.key with
        | .error e =>
          (.ok (), { w with trace := (w.trace ++ hookEvents persist.beforeHydrate context ++
            [Event.getItem persist.storage.name persist.key] ++ hydrateLog persist e) })
        | .ok none =>
          hydrateFinish persist context w w.state
            (hookEvents persist.beforeHydrate context ++
              [Event.getItem persist.storage.name persist.key])
        | .ok (some text) =>
          if text = "" then
            hydrateFinish persist context w w.state
              (hookEvents persist.beforeHydrate context ++
                [Event.getItem persist.storage.name persist.key])
          else
            match hydrateValue env persist text with
            | .error e =>
              (.ok (), { w with trace := (w.trace ++ hookEvents persist.beforeHydrate context ++
                [Event.getItem persist.storage.name persist.key] ++ hydrateLog persist e) })
            | .ok value =>
              hydrateFinish persist context w (mergePatch w.state value)
                (hookEvents persist.beforeHydrate context ++
                  [Event.getItem persist.storage.name persist.key, Event.patch value]) := by
  unfold hydrateStore tryCatchM storageGetItem hydrateFinish hydrateLog hydrateValue
  simp only [run_bind, run_liftE, run_emit, run_callHook, if_true]
  cases hb : hookResult persist.beforeHydrate context with
  | error e => cases hd : persist.debug <;> simp
  | ok u =>
    cases hg : persist.storage.getItem persist.key with
    | error e => cases hd : persist.debug <;> simp [hg]
    | ok r =>
      cases r with
      | none =>
        cases ha : hookResult persist.afterHydrate context <;>
          cases hd : persist.debug <;> simp [hg, ha, run_callHook]
      | some text =>
        by_cases ht : text = ""
        · cases ha : hookResult persist.afterHydrate context <;>
            cases hd : persist.debug <;> simp [hg, ha, ht, run_callHook]
        · cases hdes : (serializer env).deserialize text with
          | error e => cases hd : persist.debug <;> simp [hg, ht, hdes]
          | ok d =>
            cases hp : applyPick env persist.pick d with
            | error e => cases hd : persist.debug <;> simp [hg, ht, hdes, hp]
            | ok picked =>
              cases ho : applyOmit env persist.omit' picked with
              | error e => cases hd : persist.debug <;> simp [hg, ht, hdes, hp, ho]
              | ok omitted =>
                cases ha : hookResult persist.afterHydrate context <;>
                  cases hd : persist.debug <;>
                    simp [hg, ht, hdes, hp, ho, ha, run_callHook]

theorem persistState_ok (env : Env) (state : JVal) (persist : Persistence) (w : World) :
    persistState env state persist w =
      (.ok (), { w with trace := w.trace ++ persistEvents env state persist }) := by
  unfold persistEvents
  rw [persistState_run env state persist w,
    persistState_run env state persist (World.blank .null)]
  unfold World.blank
  cases hp : persistText env state persist with
  | error e => simp
  | ok text =>
    cases hw : persist.storage.setItem persist.key text <;> simp [hw]

theorem listeners_run (env : Env) (state : JVal) (subs : List Persistence) :
    ∀ w : World, forEachM (persistState env state) subs w =
      (.ok (), { w with trace := w.trace ++ subs.flatMap (persistEvents env state) }) := by
  induction subs with
  | nil => intro w; simp [forEachM]
  | cons p rest ih =>
    intro w
    simp only [forEachM, run_bind, persistState_ok, ih]
    simp

theorem hydrateLog_only_errors (persist : Persistence) (e : Err) :
    ∀ ev ∈ hydrateLog persist e, ev.isConsoleError = true := by
  unfold hydrateLog
  cases persist.debug <;> simp [Event.isConsoleError]

/-- C1. When nothing fails, `persistState(S, spec)` makes exactly one external
call, `setItem` on the entry's own storage and key, and the text written is
`serialize(omit(pick(S)))`: the include list is applied to the state, the
exclude list to the result of the include list, and an absent list is the
identity. With the collaborators of the specification, the include list
`["a.b"]` on `{a:{b:"B",c:"C"}, d:"D"}` writes the text of `{a:{b:"B"}}` and the
exclude list `["name"]` on `{name:"x", count:1}` writes the text of `{count:1}`. -/
theorem persistState_writes_projection (env : Env) (state : JVal) (persist : Persistence)
    (w : World) (picked omitted : JVal) (text : String)
    (hpick : applyPick env persist.pick state = .ok picked)
    (homit : applyOmit env persist.omit' picked = .ok omitted)
    (hser : (serializer env).serialize omitted = .ok text)
    (hset : persist.storage.setItem persist.key text = .ok ()) :
    persistState env state persist w =
        (.ok (), { w with
          trace := w.trace ++ [Event.setItem persist.storage.name persist.key text] }) ∧
      (persist.pick = none → picked = state) ∧
      (persist.omit' = none → omitted = picked) ∧
      (∀ paths, persist.pick = some paths → env.deepPickUnsafe state paths = .ok picked) ∧
      (∀ paths, persist.omit' = some paths →
        env.deepOmitUnsafe picked paths = .ok omitted) ∧
      persistEvents jsEnv
          (.obj [("a", .obj [("b", .str "B"), ("c", .str "C")]), ("d", .str "D")])
          (examplePersistence (some ["a.b"]) none) =
        [Event.setItem "localStorage" "example"
          (jsonStringify (.obj [("a", .obj [("b", .str "B")])]))] ∧
      persistEvents jsEnv (.obj [("name", .str "x"), ("count", .num 1)])
          (examplePersistence none (some ["name"])) =
        [Event.setItem "localStorage" "example"
          (jsonStringify (.obj [("count", .num 1)]))] := by
  refine ⟨?_, ?_, ?_, ?_, ?_, ?_, ?_⟩
  · rw [persistState_run]
    simp [persistText, hpick, homit, hser, hset]
  · intro h; rw [h] at hpick; simpa [applyPick] using hpick.symm
  · intro h; rw [h] at homit; simpa [applyOmit] using homit.symm
  · intro paths h; rw [h] at hpick; simpa [applyPick] using hpick
  · intro paths h; rw [h] at homit; simpa [applyOmit] using homit
  · rfl
  · rfl

/-- Witness of C1: the exclude list `["name"]` of the sample store, applied to
`{name:"x", count:1}`, in a world where nothing has been recorded. -/
theorem persistState_writes_projection_witness :
    persistState jsEnv (.obj [("name", .str "x"), ("count", .num 1)])
        (examplePersistence none (some ["name"])) (World.blank .null) =
      (.ok (), { World.blank .null with
        trace := [Event.setItem "localStorage" "example"
          (jsonStringify (.obj [("count", .num 1)]))] }) :=
  (persistState_writes_projection jsEnv (.obj [("name", .str "x"), ("count", .num 1)])
    (examplePersistence none (some ["name"])) (World.blank .null)
    (.obj [("name", .str "x"), ("count", .num 1)]) (.obj [("count", .num 1)])
    (jsonStringify (.obj [("count", .num 1)])) rfl rfl rfl rfl).1

/-- C4. If the store's `persist` option is absent or `false`, `createPersisted`
returns at once and leaves the world as it is: no `getItem`, no `setItem`, no
callback, no patch and no listener; with no listener registered, a later
mutation notification makes no call either. -/
theorem createPersisted_disabled (env : Env) (context : Context) (config : Config)
    (w : World) (h : context.persist = none ∨ context.persist = some (.bool false)) :
    createPersisted env context config w = (.ok (), w) ∧
      (w.subs = [] → ∀ state, notify env state w = (.ok (), w)) := by
  refine ⟨?_, ?_⟩
  · rcases h with h | h <;> simp [createPersisted, h, nullish, PersistOption.truthy]
  · intro hs state
    simp [notify, hs, forEachM]

/-- Witness of C4: a store without a `persist` option, under the sample global
configuration. -/
theorem createPersisted_disabled_witness :
    createPersisted jsEnv ⟨2, "counter", none⟩ globalConfig (World.blank userState) =
      (.ok (), World.blank userState) :=
  (createPersisted_disabled jsEnv ⟨2, "counter", none⟩ globalConfig (World.blank userState)
    (Or.inl rfl)).1

/-- C5. The `persist` option is normalised to a list: `true` gives exactly one
entry, one entry object gives exactly one entry, an array of `n` entry objects
gives `n` entries in the same order. The key of a resolved entry is
`keyFn(p.key)` when the entry has a key and `keyFn(store.$id)` otherwise, where
`keyFn` is `config.key` when that is a function and the identity otherwise.
So `persist === true` has key `keyFn(storeId)`, and the sample store, with key
`my_user` under the global key function that prefixes `__`, has key
`__my_user`. -/
theorem persistences_keys (env : Env) (storeId : String) (config : Config) :
    persistences env storeId config (.bool true) =
        [resolvePersistence env storeId config PersistenceOptions.empty] ∧
      (resolvePersistence env storeId config PersistenceOptions.empty).key =
        keyFn config storeId ∧
      (∀ p, persistences env storeId config (.single p) =
        [resolvePersistence env storeId config p]) ∧
      (∀ ps, persistences env storeId config (.list ps) =
        ps.map (resolvePersistence env storeId config)) ∧
      (∀ ps, (persistences env storeId config (.list ps)).length = ps.length) ∧
      (∀ p k, p.key = some k →
        (resolvePersistence env storeId config p).key = keyFn config k) ∧
      (∀ p, p.key = none →
        (resolvePersistence env storeId config p).key = keyFn config storeId) ∧
      (∀ f, config.key = some (.fn f) → keyFn config = f) ∧
      (config.key = none → keyFn config = fun x => x) ∧
      (∀ v, config.key = some (.value v) → keyFn config = fun x => x) ∧
      (∀ session, (persistences jsEnv "user" globalConfig
        (.single (userPersist session))).map (fun p => p.key) = ["__my_user"]) := by
  refine ⟨rfl, rfl, fun _ => rfl, fun _ => rfl, ?_, ?_, ?_, ?_, ?_, ?_, ?_⟩
  · intro ps; simp [persistences, persistenceOptions]
  · intro p k h; simp [resolvePersistence, h, nullish]
  · intro p h; simp [resolvePersistence, h, nullish]
  · intro f h; simp [keyFn, h]
  · intro h; simp [keyFn, h]
  · intro v h; simp [keyFn, h]
  · intro session; rfl

/-- C6. The storage of a resolved entry is the entry's own when it has one,
otherwise the global one when the configuration has one, otherwise
`window.localStorage`; its debug flag is the entry's own when it has one,
otherwise the global one, otherwise `false`. A value of the entry wins over the
global one, an explicit `debug: false` against a global `debug: true`
included, and for `persist === true` both come from the configuration or the
defaults. -/
theorem resolvePersistence_storage_debug (env : Env) (storeId : String) (config : Config)
    (p : PersistenceOptions) :
    (resolvePersistence env storeId config p).storage =
        (match p.storage, config.storage with
          | some s, _ => s
          | none, some s => s
          | none, none => env.localStorage) ∧
      (resolvePersistence env storeId config p).debug =
        (match p.debug, config.debug with
          | some d, _ => d
          | none, some d => d
          | none, none => false) ∧
      (p.debug = some false → config.debug = some true →
        (resolvePersistence env storeId config p).debug = false) ∧
      (∀ q ∈ persistences env storeId config (.bool true),
        q.storage = (match config.storage with
          | some s => s
          | none => env.localStorage) ∧
        q.debug = (match config.debug with
          | some d => d
          | none => false)) := by
  refine ⟨?_, ?_, ?_, ?_⟩
  · cases hp : p.storage <;> cases hc : config.storage <;>
      simp [resolvePersistence, nullish, hp, hc]
  · cases hp : p.debug <;> cases hc : config.debug <;>
      simp [resolvePersistence, nullish, hp, hc]
  · intro hp hc; simp [resolvePersistence, nullish, hp]
  · intro q hq
    simp only [persistences, persistenceOptions, List.map_cons, List.map_nil,
      List.mem_singleton] at hq
    subst hq
    cases hc : config.storage <;> cases hd : config.debug <;>
      simp [resolvePersistence, nullish, PersistenceOptions.empty, hc, hd]

/-- C7. `persistState` never throws: whatever the include and exclude
projections, the serialization and `storage.setItem` do, it returns, having
changed nothing but the record of calls; `console.error` is called exactly when
the entry's debug flag is set and one of those steps has thrown. Hence the
delivery of a mutation notification to the registered listeners returns too. -/
theorem persistState_never_throws (env : Env) (state : JVal) (persist : Persistence)
    (w : World) :
    ∃ evs, persistState env state persist w = (.ok (), { w with trace := w.trace ++ evs }) ∧
      ((∃ msg, Event.consoleError msg ∈ evs) ↔
        (persist.debug = true ∧
          ¬ ∃ text, persistText env state persist = .ok text ∧
            persist.storage.setItem persist.key text = .ok ())) ∧
      (notify env state w).1 = .ok () := by
  refine ⟨persistEvents env state persist, persistState_ok env state persist w, ?_, ?_⟩
  · unfold persistEvents
    rw [persistState_run]
    unfold World.blank
    cases hp : persistText env state persist with
    | error e => cases hd : persist.debug <;> simp
    | ok text =>
      cases hw : persist.storage.setItem persist.key text with
      | error e => cases hd : persist.debug <;> simp [hw]
      | ok u => simp [hw]
  · simp [notify, listeners_run]

/-- C10, as stated, fails: for the sample store `user` on a `sessionStorage`
whose `getItem` throws, the post-hydrate callback is provided, yet the calls of
the hydration are the pre-hydrate callback and the read only. -/
theorem afterHydrate_skipped :
    (resolvePersistence jsEnv "user" globalConfig
        (userPersist (brokenStorage "sessionStorage"))).afterHydrate =
        some (userHook "afterHydrate") ∧
      (hydrateStore jsEnv
        (resolvePersistence jsEnv "user" globalConfig
          (userPersist (brokenStorage "sessionStorage")))
        (userContext (brokenStorage "sessionStorage")) true
        (World.blank userState)).2.trace =
        [Event.hook "beforeHydrate" 1, Event.getItem "sessionStorage" "__my_user"] :=
  ⟨rfl, rfl⟩

/-- C10, amended. On every hydration with `runHooks` set, the calls made are:
first the pre-hydrate callback, once and with the plugin context, when it is
provided; then the read and the patch; then the post-hydrate callback, once
and with the same context, when it is provided and every step before it has
returned (the pre-hydrate callback, the read, the deserialization, the
projections), and not at all otherwise; then only `console.error`. An absent
callback makes no call and returns. -/
theorem hydrateStore_hook_calls (env : Env) (persist : Persistence) (context : Context)
    (w : World) :
    ∃ mid tail,
      (hydrateStore env persist context true w).2.trace =
        w.trace ++ hookEvents persist.beforeHydrate context ++ mid ++
          (if hydrateCompletes env persist context
            then hookEvents persist.afterHydrate context else []) ++ tail ∧
      (∀ ev ∈ mid, ev.isGetItem = true ∨ ev.isPatch = true) ∧
      (∀ ev ∈ tail, ev.isConsoleError = true) ∧
      (hookResult persist.beforeHydrate context = .ok () →
        mid.filter Event.isGetItem = [Event.getItem persist.storage.name persist.key]) ∧
      (∀ h, hookEvents (some h) context = [Event.hook h.name context.id]) ∧
      hookEvents none context = [] ∧
      hookResult none context = .ok () := by
  have hlog := hydrateLog_only_errors persist
  rw [hydrateStore_run]
  unfold hydrateFinish hydrateCompletes
  cases hb : hookResult persist.beforeHydrate context with
  | error e =>
    exact ⟨[], hydrateLog persist e, by simp, by simp, hlog e, by simp, fun _ => rfl, rfl, rfl⟩
  | ok u =>
    cases hg : persist.storage.getItem persist.key with
    | error e =>
      exact ⟨[Event.getItem persist.storage.name persist.key], hydrateLog persist e,
        by simp, by simp [Event.isGetItem], hlog e, by simp [Event.isGetItem],
        fun _ => rfl, rfl, rfl⟩
    | ok r =>
      cases r with
      | none =>
        cases ha : hookResult persist.afterHydrate context with
        | ok u' =>
          exact ⟨[Event.getItem persist.storage.name persist.key], [],
            by simp, by simp [Event.isGetItem], by simp, by simp [Event.isGetItem],
            fun _ => rfl, rfl, rfl⟩
        | error e =>
          exact ⟨[Event.getItem persist.storage.name persist.key], hydrateLog persist e,
            by simp, by simp [Event.isGetItem], hlog e, by simp [Event.isGetItem],
            fun _ => rfl, rfl, rfl⟩
      | some text =>
        by_cases ht : text = ""
        · cases ha : hookResult persist.afterHydrate context with
          | ok u' =>
            exact ⟨[Event.getItem persist.storage.name persist.key], [],
              by simp [ht], by simp [Event.isGetItem], by simp, by simp [Event.isGetItem],
              fun _ => rfl, rfl, rfl⟩
          | error e =>
            exact ⟨[Event.getItem persist.storage.name persist.key], hydrateLog persist e,
              by simp [ht], by simp [Event.isGetItem], hlog e, by simp [Event.isGetItem],
              fun _ => rfl, rfl, rfl⟩
        · cases hv : hydrateValue env persist text with
          | error e =>
            exact ⟨[Event.getItem persist.storage.name persist.key], hydrateLog persist e,
              by simp [ht, hv], by simp [Event.isGetItem], hlog e, by simp [Event.isGetItem],
              fun _ => rfl, rfl, rfl⟩
          | ok value =>
            cases ha : hookResult persist.afterHydrate context with
            | ok u' =>
              exact ⟨[Event.getItem persist.storage.name persist.key, Event.patch value], [],
                by simp [ht, hv], by simp [Event.isGetItem, Event.isPatch], by simp,
                by simp [Event.isGetItem], fun _ => rfl, rfl, rfl⟩
            | error e =>
              exact ⟨[Event.getItem persist.storage.name persist.key, Event.patch value],
                hydrateLog persist e,
                by simp [ht, hv], by simp [Event.isGetItem, Event.isPatch], hlog e,
                by simp [Event.isGetItem], fun _ => rfl, rfl, rfl⟩

end PiniaPersistence
